import Mathlib

/-!
# Verification of the GitHub spider (`services/scraper/github_spider.py`)

A shallow embedding of the pure core of the spider: Python strings are modelled
as `List Char` (`Str`), the Python string operations used by the source
(`strip`, `startswith`, `split("/")`, `"/".join`, `lower`, slicing, `in`)
are defined directly, the two regular expressions of the source are
unfolded into explicit character tests, and the network is an explicit
oracle argument.  Whitespace is modelled as the six ASCII whitespace
characters (the source only ever meets ASCII here).
-/

namespace Spider

/-- Model of a Python `str`: a list of characters. -/
abbrev Str := List Char

/-- ASCII whitespace, the model of the Python `str.isspace` characters. -/
def pyIsSpace (c : Char) : Bool :=
  c = ' ' || c = '\t' || c = '\n' || c = '\r' || c = '\x0b' || c = '\x0c'

/-- Python `s.strip()`: remove whitespace from both ends. -/
def pyStrip (s : Str) : Str :=
  ((s.dropWhile pyIsSpace).reverse.dropWhile pyIsSpace).reverse

/-- Python `s.strip("/")`: remove `'/'` from both ends. -/
def stripSlashes (s : Str) : Str :=
  ((s.dropWhile (· = '/')).reverse.dropWhile (· = '/')).reverse

/-- Python `s.lower()` (ASCII). -/
def toLowerStr (s : Str) : Str := s.map Char.toLower

/-- Python `needle in hay` (substring containment). -/
def containsSub (n : Str) : Str → Bool
  | [] => n.isEmpty
  | c :: t => n.isPrefixOf (c :: t) || containsSub n t

/-- Python `s.split("/")` (`"".split("/") == [""]`). -/
def splitSlash : Str → List Str
  | [] => [[]]
  | c :: t =>
    match splitSlash t with
    | [] => [[]]
    | h :: r => if c = '/' then [] :: h :: r else (c :: h) :: r

/-- Python `"/".join(xs)`. -/
def joinSlash : List Str → Str
  | [] => []
  | [x] => x
  | x :: y :: t => x ++ '/' :: joinSlash (y :: t)

/-! ## Constants of the source file -/

/-- `TARGET_DIRS` — directories deep-crawled for architectural insight. -/
def TARGET_DIRS : List Str :=
  ["src".data, "app".data, "lib".data, "backend".data, "frontend".data]

/-- `KEY_FILES` — files always worth capturing regardless of directory. -/
def KEY_FILES_NAMES : List Str :=
  ["package.json".data, "readme.md".data, "tsconfig.json".data, "next.config.js".data,
   "next.config.ts".data, "next.config.mjs".data, ".env.example".data,
   "docker-compose.yml".data, "dockerfile".data, "requirements.txt".data,
   "pyproject.toml".data, "manage.py".data, "cargo.toml".data, "go.mod".data]

/-- `KEY_KEYWORDS` — filename keywords signalling architectural importance. -/
def KEY_KEYWORDS : List Str :=
  ["auth".data, "middleware".data, "controller".data, "route".data, "service".data,
   "provider".data, "guard".data, "interceptor".data, "module".data, "config".data,
   "database".data, "schema".data, "model".data, "migration".data, "api".data]

/-- `MAX_KEY_FILES` — maximum files to fetch content for. -/
def MAX_KEY_FILES : Nat := 60

/-- `CANDIDATE_BRANCHES` — branches to try in order. -/
def CANDIDATE_BRANCHES : List Str :=
  ["main".data, "master".data, "develop".data, "dev".data]

/-- `_UI_NOISE_PREFIXES`, in source order. -/
def uiNoisePrefixes : List Str :=
  ["Skip to content/".data, "Skip to content".data,
   "Navigation Menu/".data, "Navigation Menu".data,
   "Go to file/".data, "Go to file".data,
   "Search syntax tips/".data, "Search syntax tips".data,
   "Footer/".data, "Footer".data]

/-- The alternation of `_UI_NOISE_PATTERNS`, lowercased, in source order. -/
def noiseKeywords : List Str :=
  ["skip to content".data, "navigation menu".data, "go to file".data,
   "footer".data, "search syntax tips".data]

/-- The lowercase noise-segment set dropped by `_clean_path`. -/
def noiseSegments : List Str :=
  ["skip to content".data, "navigation menu".data, "go to file".data,
   "footer".data, "actions".data, "autofix".data, "search syntax tips".data]

/-! ## `_clean_path` -/

/-- The `for prefix in _UI_NOISE_PREFIXES` loop of `_clean_path`: each listed
prefix is stripped once, in order, from the running value. -/
def stripPrefixesLoop : List Str → Str → Str
  | [], s => s
  | q :: qs, s =>
    stripPrefixesLoop qs (if q.isPrefixOf s then s.drop q.length else s)

/-- A character of the regex class `[/\\\s]`. -/
def isNoiseSep (c : Char) : Bool := c = '/' || c = '\\' || pyIsSpace c

/-- `_UI_NOISE_PATTERNS.sub("", s)`: the pattern is anchored at the start
(`^(...)` with `re.IGNORECASE`, then `[/\\\s]*`), so at most one substitution
happens, at position 0.  The first alternative whose lowercased text prefixes
`s` is removed together with the following separator run. -/
def regexNoiseSub (s : Str) : Str :=
  match noiseKeywords.find? (fun k => decide (toLowerStr (s.take k.length) = k)) with
  | some k => (s.drop k.length).dropWhile isNoiseSep
  | none => s

/-- `_clean_path`: strip GitHub UI noise from extracted file paths. -/
def cleanPath (p : Str) : Str :=
  let c1 := pyStrip p
  let c2 := stripPrefixesLoop uiNoisePrefixes c1
  let c3 := regexNoiseSub c2
  let c4 := pyStrip (stripSlashes (pyStrip c3))
  let filtered := (splitSlash c4).filter
    (fun q => !q.isEmpty && !(decide (toLowerStr q ∈ noiseSegments)))
  joinSlash filtered

/-! ## `_is_valid_path`, `_is_valid_content`, classification helpers -/

/-- `re.match(r"^[A-Z][a-z]+ .{20,}", path)`: an uppercase letter, a maximal
nonempty lowercase run, a space, then at least 20 non-newline characters. -/
def proseMatch : Str → Bool
  | [] => false
  | c :: rest =>
    c.isUpper &&
    (let low := rest.takeWhile Char.isLower
     let after := rest.drop low.length
     !low.isEmpty &&
       (match after with
        | ' ' :: tail => decide ((tail.takeWhile (fun d => d ≠ '\n')).length ≥ 20)
        | _ => false))

/-- `_is_valid_path`: true when `path` looks like a real file/directory path. -/
def isValidPath (p : Str) : Bool :=
  !p.isEmpty && !p.contains ';' &&
  (splitSlash p).all (fun comp => decide (comp.count ' ' ≤ 3)) &&
  !proseMatch p

/-- The trimmed, truncated, lowercased view `content.strip()[:200].lower()`. -/
def trimmed200 (c : Str) : Str := toLowerStr ((pyStrip c).take 200)

/-- `_is_valid_content`: true when content looks like a file, not a 404 page. -/
def isValidContent (c : Str) : Bool :=
  if (pyStrip c).isEmpty then false
  else if ("404".data).isPrefixOf (trimmed200 c) then false
  else if containsSub ("404: not found".data) (trimmed200 c) then false
  else if containsSub ("<html".data) (trimmed200 c) &&
          containsSub ("not found".data) (trimmed200 c) then false
  else true

/-- `_is_key_file`: exact well-known name, or an architecture keyword. -/
def isKeyFile (filename : Str) : Bool :=
  let lower := toLowerStr filename
  decide (lower ∈ KEY_FILES_NAMES) || KEY_KEYWORDS.any (fun kw => containsSub kw lower)

/-- `_is_in_target_dir`: some lowercased path segment is a target directory. -/
def isInTargetDir (fp : Str) : Bool :=
  (splitSlash (toLowerStr fp)).any (fun p => decide (p ∈ TARGET_DIRS))

/-! ## Session state (`GitHubSpider.__init__` accumulators) -/

/-- One `key_files` value: `{"path": ..., "content": ...}`. -/
structure KeyFileInfo where
  path : Str
  content : Str
  deriving DecidableEq, Repr

/-- The mutable accumulators of one `GitHubSpider` session:
`file_tree`, `key_files` (an insertion-ordered dict), `_visited`,
`_debug_html` and `branch`. -/
structure SpiderState where
  file_tree : List Str
  key_files : List (Str × KeyFileInfo)
  visited : List Str
  debug_html : Str
  branch : Str
  deriving DecidableEq, Repr

/-- The accumulators right after `__init__`, with the given branch. -/
def emptyState (b : Str) : SpiderState :=
  { file_tree := [], key_files := [], visited := [], debug_html := [], branch := b }

/-- Python `key in dict`. -/
def dictMem (k : Str) (d : List (Str × KeyFileInfo)) : Bool :=
  d.any (fun kv => decide (kv.1 = k))

/-- Python `dict[k] = v`: update in place if present, else append
(insertion order is preserved, as for a Python `dict`). -/
def dictSet (d : List (Str × KeyFileInfo)) (k : Str) (v : KeyFileInfo) :
    List (Str × KeyFileInfo) :=
  if dictMem k d then d.map (fun kv => if kv.1 = k then (k, v) else kv)
  else d ++ [(k, v)]

/-! ## `_process_api_tree` -/

/-- One entry of the GitHub API tree: `{path, type}` (`size` is unused). -/
structure TreeEntry where
  path : Str
  type : Str
  deriving DecidableEq, Repr

/-- The loop body of the first pass of `_process_api_tree`: record a blob in
`file_tree` and track it as a key-file candidate, capped at `MAX_KEY_FILES`. -/
def stepPass1 (st : SpiderState) (e : TreeEntry) : SpiderState :=
  let clean := cleanPath e.path
  if clean.isEmpty || !isValidPath clean then st
  else if e.type = "blob".data then
    let st1 := { st with file_tree := st.file_tree ++ [clean] }
    if (isKeyFile ((splitSlash clean).getLastD [] ) || isInTargetDir clean)
        && st1.key_files.length < MAX_KEY_FILES then
      { st1 with key_files := dictSet st1.key_files clean ⟨clean, []⟩ }
    else st1
  else st

/-- First pass of `_process_api_tree`. -/
def processPass1 (tree : List TreeEntry) (s : SpiderState) : SpiderState :=
  tree.foldl stepPass1 s

/-- The loop body of the second pass of `_process_api_tree`: "Also register
well-known root files that might not match keywords" — note: no
`MAX_KEY_FILES` check here. -/
def stepPass2 (st : SpiderState) (e : TreeEntry) : SpiderState :=
  if e.type = "blob".data && !(e.path.contains '/') then
    if decide (toLowerStr e.path ∈ KEY_FILES_NAMES) && !dictMem e.path st.key_files
    then { st with key_files := st.key_files ++ [(e.path, ⟨e.path, []⟩)] }
    else st
  else st

/-- Second pass of `_process_api_tree`. -/
def processPass2 (tree : List TreeEntry) (s : SpiderState) : SpiderState :=
  tree.foldl stepPass2 s

/-- `_process_api_tree`: the two passes over the API tree, in order. -/
def processApiTree (tree : List TreeEntry) (s : SpiderState) : SpiderState :=
  processPass2 tree (processPass1 tree s)

/-! ## Content fetching (`_fetch_raw_content`, `_fetch_single_content`) -/

/-- The raw-content network oracle: branch and path to the response body,
`none` for a non-200 status or a transport error. -/
abbrev Net := Str → Str → Option Str

/-- `_fetch_raw_content` (owner/repo fixed per session): clean and validate
the path, request, validate the content, truncate to 8192 characters.
Every failure returns the empty string, like the source. -/
def fetchRawContent (net : Net) (branch fp : Str) : Str :=
  let clean_fp := cleanPath fp
  if clean_fp.isEmpty || !isValidPath clean_fp then []
  else
    match net branch clean_fp with
    | some content => if !isValidContent content then [] else content.take 8192
    | none => []

/-- The branch list tried by `_fetch_single_content`: the session branch
first, then the candidate branches that differ from it, in declared order. -/
def branchOrder (resolved : Str) : List Str :=
  resolved :: CANDIDATE_BRANCHES.filter (fun b => decide (b ≠ resolved))

/-- The branch loop of `_fetch_single_content`: first non-empty
(hence validated) result wins; no later branch is tried after it. -/
def tryBranches (net : Net) (fp : Str) : List Str → Str
  | [] => []
  | b :: bs =>
    let content := fetchRawContent net b fp
    if !content.isEmpty then content else tryBranches net fp bs

/-- `tryBranches` instrumented with the list of branches actually tried. -/
def tryBranchesT (net : Net) (fp : Str) : List Str → Str × List Str
  | [] => ([], [])
  | b :: bs =>
    let content := fetchRawContent net b fp
    if !content.isEmpty then (content, [b])
    else
      let r := tryBranchesT net fp bs
      (r.1, b :: r.2)

/-- `_fetch_single_content`: validity guard, then the branch loop. -/
def fetchSingleContent (net : Net) (resolved fp : Str) : Str :=
  let clean_fp := cleanPath fp
  if clean_fp.isEmpty || !isValidPath clean_fp then []
  else tryBranches net clean_fp (branchOrder resolved)

/-- `_fetch_single_content` instrumented with the branches actually tried. -/
def fetchSingleContentT (net : Net) (resolved fp : Str) : Str × List Str :=
  let clean_fp := cleanPath fp
  if clean_fp.isEmpty || !isValidPath clean_fp then ([], [])
  else tryBranchesT net clean_fp (branchOrder resolved)

/-- `_fetch_all_key_file_contents`: fetch each candidate by its key and store
a non-empty result as its content. -/
def fetchAllContents (net : Net) (resolved : Str) (s : SpiderState) : SpiderState :=
  { s with key_files := s.key_files.map (fun kv =>
      let r := fetchSingleContent net resolved kv.1
      if !r.isEmpty then (kv.1, { kv.2 with content := r }) else kv) }

/-! ## Web-crawl fallback (`_crawl_via_web`, `_walk_web_directory`,
`_extract_listing`) -/

/-- One extracted listing entry: `{name, link, item_type}`. -/
structure WebEntry where
  name : Str
  link : Str
  item_type : Str
  deriving DecidableEq, Repr

/-- What one rendered page yields: the entries the extraction cascade
eventually produced, and the page markup kept for diagnostics. -/
structure PageResult where
  entries : List WebEntry
  markup : Str
  deriving DecidableEq, Repr

/-- The rendering backend as an oracle from URL to page result. -/
abbrev Oracle := Str → PageResult

/-- `_extract_listing`: visited-URL guard, then the extraction cascade
(abstracted into the oracle); when nothing was extracted the page markup is
kept (truncated) as `_debug_html`. -/
def extractListingM (o : Oracle) (url : Str) (s : SpiderState) :
    List WebEntry × SpiderState :=
  if decide (url ∈ s.visited) then ([], s)
  else
    let pr := o url
    let s1 := { s with visited := s.visited ++ [url] }
    if pr.entries.isEmpty then
      (pr.entries, { s1 with debug_html := pr.markup.take 5000 })
    else (pr.entries, s1)

/-- `_resolve_link`: absolute links pass through, others join the site root. -/
def resolveLink (href : Str) : Str :=
  if ("http".data).isPrefixOf href then href
  else "https://github.com/".data ++ href.dropWhile (· = '/')

/-- `is_dir = "directory" in str(item_type).lower() or "/tree/" in link`. -/
def webIsDir (e : WebEntry) : Bool :=
  containsSub ("directory".data) (toLowerStr e.item_type) ||
  containsSub ("/tree/".data) e.link

/-- The entry loop of `_walk_web_directory`, parameterized by the walk used
for subdirectories (the recursive call one level deeper). -/
def walkEntriesF (walkF : Str → Str → SpiderState → List Str × SpiderState)
    (pfx : Str) : List WebEntry → SpiderState → List Str × SpiderState
  | [], s => ([], s)
  | e :: rest, s =>
    let name := cleanPath (pyStrip e.name)
    if name.isEmpty || !isValidPath name then walkEntriesF walkF pfx rest s
    else
      let full := pfx ++ '/' :: name
      if webIsDir e then
        let r := walkF (resolveLink e.link) full s
        let r2 := walkEntriesF walkF pfx rest r.2
        ((full ++ ['/']) :: (r.1 ++ r2.1), r2.2)
      else
        let s1 :=
          if isKeyFile name && s.key_files.length < MAX_KEY_FILES then
            { s with key_files := dictSet s.key_files full ⟨full, []⟩ }
          else s
        let r := walkEntriesF walkF pfx rest s1
        (full :: r.1, r.2)

/-- `_walk_web_directory`, fuel-indexed: a call at source depth `d` is
`walkWebF o (5 - d)`, so `depth > 4` is exactly fuel `0` and the cut
`if depth > 4: return []` is the fuel-0 case.  Defined through `Nat.rec`
so that it evaluates by kernel reduction. -/
def walkWebF (o : Oracle) (fuel : Nat) : Str → Str → SpiderState → List Str × SpiderState :=
  Nat.rec (motive := fun _ => Str → Str → SpiderState → List Str × SpiderState)
    (fun _ _ s => ([], s))
    (fun _ ih url pfx s =>
      let r := extractListingM o url s
      walkEntriesF ih pfx r.1 r.2)
    fuel

/-- `_walk_web_directory` with the `depth` parameter of the source. -/
def walkWebDirectory (o : Oracle) (url pfx : Str) (depth : Nat) (s : SpiderState) :
    List Str × SpiderState :=
  walkWebF o (5 - depth) url pfx s

/-- The root entry loop of `_crawl_via_web` (lines 448–471): directories are
recorded with a trailing slash and recursed into only when their name is a
target directory; files are recorded and may become key-file candidates. -/
def crawlWebEntries (o : Oracle) : List WebEntry → SpiderState → SpiderState
  | [], s => s
  | e :: rest, s =>
    let name := cleanPath (pyStrip e.name)
    if name.isEmpty || !isValidPath name then crawlWebEntries o rest s
    else if webIsDir e then
      let s1 := { s with file_tree := s.file_tree ++ [name ++ ['/']] }
      if decide (toLowerStr name ∈ TARGET_DIRS) then
        let r := walkWebDirectory o (resolveLink e.link) name 1 s1
        crawlWebEntries o rest { r.2 with file_tree := r.2.file_tree ++ r.1 }
      else crawlWebEntries o rest s1
    else
      let s1 := { s with file_tree := s.file_tree ++ [name] }
      let s2 :=
        if isKeyFile name && s1.key_files.length < MAX_KEY_FILES then
          { s1 with key_files := dictSet s1.key_files name ⟨name, []⟩ }
        else s1
      crawlWebEntries o rest s2

/-- The alternative-branch retry loop of `_crawl_via_web`: first branch whose
root listing is non-empty wins and is recorded in the session. -/
def altBranchLoop (o : Oracle) (repoUrl : Str) :
    List Str → SpiderState → List WebEntry × SpiderState
  | [], s => ([], s)
  | b :: bs, s =>
    let r := extractListingM o (repoUrl ++ "/tree/".data ++ b) s
    if !r.1.isEmpty then (r.1, { r.2 with branch := b })
    else altBranchLoop o repoUrl bs r.2

/-- `_crawl_via_web`: list the root (retrying other branches when empty),
then run the root entry loop. -/
def crawlViaWeb (o : Oracle) (repoUrl : Str) (s : SpiderState) : SpiderState :=
  let r := extractListingM o (repoUrl ++ "/tree/".data ++ s.branch) s
  let r2 :=
    if r.1.isEmpty then
      altBranchLoop o repoUrl (CANDIDATE_BRANCHES.filter (fun b => decide (b ≠ s.branch))) r.2
    else r
  crawlWebEntries o r2.1 r2.2

/-! ## Blueprint assembly (`_build_blueprint`, end of `crawl`) -/

/-- Ordered insert without duplication: the building block of
`sorted(set(...))`.  `<` is the lexicographic code-point order on
`List Char`, which is the Python `<` on `str`. -/
def insertSorted (x : Str) : List Str → List Str
  | [] => [x]
  | y :: ys =>
    if x < y then x :: y :: ys
    else if y < x then y :: insertSorted x ys
    else y :: ys

/-- `sorted(set(l))`: strictly sorted list of the distinct elements. -/
def sortedDedup (l : List Str) : List Str := l.foldl (fun acc x => insertSorted x acc) []

/-- The `stats` object of the blueprint. -/
structure Stats where
  total_files_in_tree : Nat
  files_in_target_dirs : Nat
  total_key_files_found : Nat
  total_key_files_with_content : Nat
  files_failed : Nat
  directories_crawled : Nat
  deriving DecidableEq, Repr

/-- The output aggregate (`repo`/`url` metadata omitted: they are copies of
the constructor arguments).  An absent `errors` object is the empty list; an
absent `debug` object is `none`. -/
structure Blueprint where
  branch : Str
  file_tree : List Str
  target_directory_files : List Str
  key_files : List (Str × KeyFileInfo)
  errors_files_not_found : List Str
  stats : Stats
  debug : Option (Str × Str)
  deriving DecidableEq, Repr

/-- The `valid_key_files` comprehension of `_build_blueprint`: a verified
entry (content present and validated) is re-keyed by its cleaned path with
content truncated to 4096 characters; others are dropped. -/
def keepVerified (d : List (Str × KeyFileInfo)) (kv : Str × KeyFileInfo) :
    List (Str × KeyFileInfo) :=
  if !kv.2.content.isEmpty && isValidContent kv.2.content then
    dictSet d (cleanPath kv.1) ⟨cleanPath kv.2.path, kv.2.content.take 4096⟩
  else d

/-- `_build_blueprint`: keep verified key files, list failed candidates,
clean/validate, dedupe and sort the file tree, compute statistics. -/
def buildBlueprint (s : SpiderState) : Blueprint :=
  let valid_key_files := s.key_files.foldl keepVerified []
  let errored := (s.key_files.filter
    (fun kv => kv.2.content.isEmpty || !isValidContent kv.2.content)).map
    (fun kv => cleanPath kv.1)
  let clean_tree := sortedDedup ((s.file_tree.map cleanPath).filter
    (fun c => !c.isEmpty && isValidPath c))
  let target := clean_tree.filter isInTargetDir
  { branch := s.branch
    file_tree := clean_tree
    target_directory_files := target
    key_files := valid_key_files
    errors_files_not_found := errored
    stats :=
      { total_files_in_tree := clean_tree.length
        files_in_target_dirs := target.length
        total_key_files_found := s.key_files.length
        total_key_files_with_content := valid_key_files.length
        files_failed := errored.length
        directories_crawled := s.visited.length }
    debug := none }

/-- The debug message attached by `crawl`. -/
def debugMsg : Str := "No files found. Raw HTML excerpt from crawl below.".data

/-- Step 4 of `crawl`: build the blueprint and, when zero key files were
found and some markup was kept, attach the debug payload. -/
def finalize (s : SpiderState) : Blueprint :=
  let bp := buildBlueprint s
  if bp.stats.total_key_files_found = 0 && !s.debug_html.isEmpty then
    { bp with debug := some (debugMsg, s.debug_html.take 5000) }
  else bp

/-- The whole crawl when the API tier succeeded with `tree`. -/
def crawlApiPipeline (net : Net) (b : Str) (tree : List TreeEntry) : Blueprint :=
  finalize (fetchAllContents net b (processApiTree tree (emptyState b)))

/-- The whole crawl when the web tier ran instead. -/
def crawlWebPipeline (o : Oracle) (net : Net) (b : Str) (repoUrl : Str) : Blueprint :=
  finalize (fetchAllContents net b (crawlViaWeb o repoUrl (emptyState b)))

/-! ## Auxiliary predicates and concrete inputs used by the claims -/

/-- A cleaned path on which `cleanPath` performs no work: already stripped,
no UI-noise prefix, no noise-pattern keyword at the front, no surrounding
slashes, and only nonempty non-noise segments. -/
def cleanStable (q : Str) : Bool :=
  decide (pyStrip q = q) &&
  uiNoisePrefixes.all (fun x => !(x.isPrefixOf q)) &&
  noiseKeywords.all (fun k => !(decide (toLowerStr (q.take k.length) = k))) &&
  decide (stripSlashes q = q) &&
  (splitSlash q).all (fun seg => !seg.isEmpty && !(decide (toLowerStr seg ∈ noiseSegments)))

/-- The characterization of content rejection given by the specification, as the
spec words it: a disjunction over the trimmed, truncated, lowercased body.
Compared against `isValidContent` (from the source) in the C7 theorem. -/
def rejectedBySpec (c : Str) : Bool :=
  (pyStrip c).isEmpty ||
  ("404".data).isPrefixOf (trimmed200 c) ||
  containsSub ("404: not found".data) (trimmed200 c) ||
  (containsSub ("<html".data) (trimmed200 c) && containsSub ("not found".data) (trimmed200 c))

/-- Entries the second API pass may register past the cap: root-level blobs
whose lowercased name is a well-known key filename. -/
def countRootKeyEntries (tree : List TreeEntry) : Nat :=
  tree.countP (fun e =>
    (decide (e.type = "blob".data) && !(e.path.contains '/')) &&
    decide (toLowerStr e.path ∈ KEY_FILES_NAMES))

/-- Whether the raw fetch on one branch yields validated content for `fp`. -/
def branchOk (net : Net) (fp b : Str) : Bool := !(fetchRawContent net b fp).isEmpty

/-- A tree of 60 distinct target-directory files followed by one well-known
root file: fills the candidate map to the cap, then triggers the uncapped
second pass. -/
def c1Tree : List TreeEntry :=
  ((List.range 60).map fun i =>
    ⟨"src/a".data ++ [Char.ofNat (48 + i / 10), Char.ofNat (48 + i % 10)], "blob".data⟩)
  ++ [⟨"package.json".data, "blob".data⟩]

/-- A session that found one candidate whose fetch failed (content empty)
and kept a markup excerpt. -/
def c5State : SpiderState :=
  { file_tree := [], key_files := [("a.py".data, ⟨"a.py".data, []⟩)],
    visited := [], debug_html := "x".data, branch := "main".data }

/-- An oracle whose every page lists a single file `auth.py`. -/
def flatOracle : Oracle := fun _ => ⟨[⟨"auth.py".data, "".data, "file".data⟩], []⟩

/-- A root listing with one non-target directory and one plain file. -/
def c6Entries : List WebEntry :=
  [⟨"docs".data, "/o/r/tree/main/docs".data, "Directory".data⟩,
   ⟨"main.py".data, "/o/r/blob/main/main.py".data, "file".data⟩]

/-- A root listing with only a non-target directory. -/
def c6wEntries : List WebEntry :=
  [⟨"docs".data, "/o/r/tree/main/docs".data, "Directory".data⟩]

/-- A network where only `master` serves `README.md`. -/
def c3Net : Net := fun b p =>
  if b = "master".data ∧ p = "README.md".data then some ("hello".data) else none

/-! ## Lemmas about splitting, joining and cleaning -/

theorem splitSlash_ne_nil (s : Str) : splitSlash s ≠ [] := by
  cases s with
  | nil => simp [splitSlash]
  | cons c t =>
    unfold splitSlash
    cases h : splitSlash t with
    | nil => simp
    | cons a r =>
      dsimp only
      split <;> simp

theorem joinSlash_cons (c : Char) (h : Str) (r : List Str) :
    joinSlash ((c :: h) :: r) = c :: joinSlash (h :: r) := by
  cases r <;> simp [joinSlash]

theorem joinSlash_splitSlash (s : Str) : joinSlash (splitSlash s) = s := by
  induction s with
  | nil => rfl
  | cons c t ih =>
    unfold splitSlash
    cases h : splitSlash t with
    | nil => exact absurd h (splitSlash_ne_nil t)
    | cons a r =>
      rw [h] at ih
      dsimp only
      by_cases hc : c = '/'
      · subst hc
        simp only [if_pos rfl, joinSlash]
        rw [ih]
        rfl
      · rw [if_neg hc, joinSlash_cons, ih]

theorem stripPrefixesLoop_id {ps : List Str} {s : Str}
    (h : ∀ q ∈ ps, q.isPrefixOf s = false) : stripPrefixesLoop ps s = s := by
  induction ps with
  | nil => rfl
  | cons q qs ih =>
    unfold stripPrefixesLoop
    rw [h q (by simp), if_neg (by simp)]
    exact ih (fun x hx => h x (by simp [hx]))

theorem regexNoiseSub_id {s : Str}
    (h : ∀ k ∈ noiseKeywords, ¬ toLowerStr (s.take k.length) = k) :
    regexNoiseSub s = s := by
  unfold regexNoiseSub
  have hf : noiseKeywords.find?
      (fun k => decide (toLowerStr (s.take k.length) = k)) = none := by
    rw [List.find?_eq_none]
    intro k hk
    simp [h k hk]
  rw [hf]

/-- A `cleanStable` string is a fixed point of `cleanPath`. -/
theorem cleanPath_of_cleanStable {q : Str} (h : cleanStable q = true) :
    cleanPath q = q := by
  unfold cleanStable at h
  simp only [Bool.and_eq_true, List.all_eq_true, decide_eq_true_eq,
    Bool.not_eq_true'] at h
  obtain ⟨⟨⟨⟨h1, h2⟩, h3⟩, h4⟩, h5⟩ := h
  unfold cleanPath
  dsimp only
  rw [h1, stripPrefixesLoop_id h2,
    regexNoiseSub_id (fun k hk => by simpa using h3 k hk),
    h1, h4, h1]
  rw [List.filter_eq_self.mpr]
  · exact joinSlash_splitSlash q
  · intro a ha
    have := h5 a ha
    simp only [Bool.and_eq_true, Bool.not_eq_true']
    constructor
    · exact this.1
    · simpa using this.2

/-! ## Lemmas about `sorted(set(...))` -/

theorem mem_insertSorted {a x : Str} {l : List Str} (h : a ∈ insertSorted x l) :
    a = x ∨ a ∈ l := by
  induction l with
  | nil => simpa [insertSorted] using h
  | cons y ys ih =>
    unfold insertSorted at h
    split at h
    · rcases List.mem_cons.mp h with h' | h'
      · exact Or.inl h'
      · exact Or.inr h'
    · split at h
      · rcases List.mem_cons.mp h with h' | h'
        · exact Or.inr (by simp [h'])
        · rcases ih h' with h'' | h''
          · exact Or.inl h''
          · exact Or.inr (by simp [h''])
      · exact Or.inr h

theorem pairwise_insertSorted {x : Str} {l : List Str}
    (h : l.Pairwise (· < ·)) : (insertSorted x l).Pairwise (· < ·) := by
  induction l with
  | nil => simp [insertSorted]
  | cons y ys ih =>
    rw [List.pairwise_cons] at h
    obtain ⟨hy, hys⟩ := h
    unfold insertSorted
    split
    · rename_i hxy
      refine List.Pairwise.cons ?_ (List.Pairwise.cons hy hys)
      intro z hz
      rcases List.mem_cons.mp hz with rfl | hz'
      · exact hxy
      · exact lt_trans hxy (hy z hz')
    · split
      · rename_i hyx
        refine List.Pairwise.cons ?_ (ih hys)
        intro z hz
        rcases mem_insertSorted hz with rfl | hz'
        · exact hyx
        · exact hy z hz'
      · exact List.Pairwise.cons hy hys

theorem pairwise_foldl_insertSorted (l : List Str) :
    ∀ acc : List Str, acc.Pairwise (· < ·) →
      (l.foldl (fun acc x => insertSorted x acc) acc).Pairwise (· < ·) := by
  induction l with
  | nil => intro acc h; simpa using h
  | cons x xs ih => intro acc h; exact ih _ (pairwise_insertSorted h)

theorem pairwise_sortedDedup (l : List Str) : (sortedDedup l).Pairwise (· < ·) :=
  pairwise_foldl_insertSorted l [] (by simp)

theorem mem_foldl_insertSorted {a : Str} (l : List Str) :
    ∀ acc, a ∈ l.foldl (fun acc x => insertSorted x acc) acc → a ∈ acc ∨ a ∈ l := by
  induction l with
  | nil => intro acc h; exact Or.inl h
  | cons x xs ih =>
    intro acc h
    rcases ih _ h with h' | h'
    · rcases mem_insertSorted h' with rfl | h''
      · simp
      · exact Or.inl h''
    · simp [h']

theorem mem_sortedDedup {a : Str} {l : List Str} (h : a ∈ sortedDedup l) : a ∈ l := by
  rcases mem_foldl_insertSorted l [] h with h' | h'
  · simp at h'
  · exact h'

/-! ## `finalize` only touches the `debug` field -/

theorem finalize_file_tree (s : SpiderState) :
    (finalize s).file_tree = (buildBlueprint s).file_tree := by
  unfold finalize; dsimp only; split <;> rfl

theorem finalize_key_files (s : SpiderState) :
    (finalize s).key_files = (buildBlueprint s).key_files := by
  unfold finalize; dsimp only; split <;> rfl

theorem finalize_stats (s : SpiderState) :
    (finalize s).stats = (buildBlueprint s).stats := by
  unfold finalize; dsimp only; split <;> rfl

theorem buildBlueprint_found (s : SpiderState) :
    (buildBlueprint s).stats.total_key_files_found = s.key_files.length := rfl

/-! ## Dictionary lemmas -/

theorem dictSet_prop {P : Str × KeyFileInfo → Prop} {d : List (Str × KeyFileInfo)}
    {k : Str} {v : KeyFileInfo} (hd : ∀ kv ∈ d, P kv) (hk : P (k, v)) :
    ∀ kv ∈ dictSet d k v, P kv := by
  intro kv hkv
  unfold dictSet at hkv
  split at hkv
  · rcases List.mem_map.mp hkv with ⟨kv0, hkv0, heq⟩
    by_cases h : kv0.1 = k
    · rw [if_pos h] at heq; rw [← heq]; exact hk
    · rw [if_neg h] at heq; rw [← heq]; exact hd kv0 hkv0
  · rcases List.mem_append.mp hkv with h | h
    · exact hd kv h
    · rw [List.mem_singleton.mp h]; exact hk

theorem dictSet_length_le (d : List (Str × KeyFileInfo)) (k : Str) (v : KeyFileInfo) :
    (dictSet d k v).length ≤ d.length + 1 := by
  unfold dictSet
  split
  · simp
  · simp

/-- States whose tracked candidates all still have empty content (true for
every state produced by a discovery tier, before the content fetch). -/
def allContentsNil (d : List (Str × KeyFileInfo)) : Prop :=
  ∀ kv ∈ d, kv.2.content = []

/-! ## The content-fetch guard: a non-empty fetch implies a valid clean path -/

theorem fetchSingleContent_valid {net : Net} {b fp : Str}
    (h : fetchSingleContent net b fp ≠ []) :
    isValidPath (cleanPath fp) = true := by
  unfold fetchSingleContent at h
  dsimp only at h
  by_cases hg : ((cleanPath fp).isEmpty || !isValidPath (cleanPath fp)) = true
  · rw [if_pos hg] at h
    exact absurd rfl h
  · simp only [Bool.or_eq_true, Bool.not_eq_true', not_or] at hg
    cases hv : isValidPath (cleanPath fp)
    · exact absurd hv hg.2
    · rfl

theorem fetchAllContents_valid {net : Net} {b : Str} {s : SpiderState}
    (hs : allContentsNil s.key_files) :
    ∀ kv ∈ (fetchAllContents net b s).key_files,
      kv.2.content ≠ [] → isValidPath (cleanPath kv.1) = true := by
  intro kv hkv hne
  unfold fetchAllContents at hkv
  dsimp only at hkv
  rcases List.mem_map.mp hkv with ⟨kv0, hkv0, heq⟩
  by_cases hr : (fetchSingleContent net b kv0.1).isEmpty = true
  · rw [if_neg (by simp [hr])] at heq
    rw [← heq] at hne
    exact absurd (hs kv0 hkv0) hne
  · rw [if_pos (by simp [hr])] at heq
    have hv : isValidPath (cleanPath kv0.1) = true :=
      fetchSingleContent_valid (by simpa using hr)
    rw [← heq]
    exact hv

/-! ## Content-emptiness is preserved by every discovery step -/

theorem stepPass1_contents {s : SpiderState} {e : TreeEntry}
    (h : allContentsNil s.key_files) : allContentsNil (stepPass1 s e).key_files := by
  unfold stepPass1
  dsimp only
  split
  · exact h
  · split
    · split
      · exact dictSet_prop (P := fun kv => kv.2.content = []) h rfl
      · exact h
    · exact h

theorem stepPass2_contents {s : SpiderState} {e : TreeEntry}
    (h : allContentsNil s.key_files) : allContentsNil (stepPass2 s e).key_files := by
  unfold stepPass2
  split
  · split
    · intro kv hkv
      rcases List.mem_append.mp hkv with h' | h'
      · exact h kv h'
      · rw [List.mem_singleton.mp h']
    · exact h
  · exact h

theorem foldl_contents {α : Type} {f : SpiderState → α → SpiderState}
    (hf : ∀ s a, allContentsNil s.key_files → allContentsNil (f s a).key_files) :
    ∀ (l : List α) (s : SpiderState), allContentsNil s.key_files →
      allContentsNil (l.foldl f s).key_files := by
  intro l
  induction l with
  | nil => intro s h; exact h
  | cons x xs ih => intro s h; exact ih _ (hf s x h)

theorem processApiTree_contents {tree : List TreeEntry} {s : SpiderState}
    (h : allContentsNil s.key_files) :
    allContentsNil (processApiTree tree s).key_files :=
  foldl_contents (fun _ _ => stepPass2_contents) tree _
    (foldl_contents (fun _ _ => stepPass1_contents) tree s h)

theorem extractListingM_key_files (o : Oracle) (u : Str) (s : SpiderState) :
    ((extractListingM o u s).2).key_files = s.key_files := by
  unfold extractListingM
  dsimp only
  split
  · rfl
  · split <;> rfl

theorem walkEntriesF_contents
    {walkF : Str → Str → SpiderState → List Str × SpiderState}
    (hw : ∀ u p s, allContentsNil s.key_files →
      allContentsNil ((walkF u p s).2).key_files) (pfx : Str) :
    ∀ (es : List WebEntry) (s : SpiderState), allContentsNil s.key_files →
      allContentsNil ((walkEntriesF walkF pfx es s).2).key_files := by
  intro es
  induction es with
  | nil => intro s h; exact h
  | cons e rest ih =>
    intro s h
    rw [walkEntriesF]
    dsimp only
    split
    · exact ih s h
    · split
      · exact ih _ (hw _ _ _ h)
      · refine ih _ ?_
        split
        · exact dictSet_prop (P := fun kv => kv.2.content = []) h rfl
        · exact h

theorem walkWebF_contents (o : Oracle) :
    ∀ (fuel : Nat) (u p : Str) (s : SpiderState), allContentsNil s.key_files →
      allContentsNil ((walkWebF o fuel u p s).2).key_files := by
  intro fuel
  induction fuel with
  | zero => intro u p s h; exact h
  | succ f ih =>
    intro u p s h
    have hx : allContentsNil ((extractListingM o u s).2).key_files := by
      rw [extractListingM_key_files]; exact h
    exact walkEntriesF_contents (fun u' p' s' h' => ih u' p' s' h') p _ _ hx

theorem crawlWebEntries_contents (o : Oracle) :
    ∀ (es : List WebEntry) (s : SpiderState), allContentsNil s.key_files →
      allContentsNil (crawlWebEntries o es s).key_files := by
  intro es
  induction es with
  | nil => intro s h; exact h
  | cons e rest ih =>
    intro s h
    rw [crawlWebEntries]
    dsimp only
    split
    · exact ih s h
    · split
      · split
        · exact ih _ (walkWebF_contents o _ _ _ _ h)
        · exact ih _ h
      · refine ih _ ?_
        split
        · exact dictSet_prop (P := fun kv => kv.2.content = []) h rfl
        · exact h

theorem altBranchLoop_key_files (o : Oracle) (ru : Str) :
    ∀ (bs : List Str) (s : SpiderState),
      ((altBranchLoop o ru bs s).2).key_files = s.key_files := by
  intro bs
  induction bs with
  | nil => intro s; rfl
  | cons b t ih =>
    intro s
    rw [altBranchLoop]
    dsimp only
    split
    · rw [show ({ (extractListingM o (ru ++ "/tree/".data ++ b) s).2 with branch := b } :
          SpiderState).key_files = _ from rfl, extractListingM_key_files]
    · rw [ih, extractListingM_key_files]

theorem crawlViaWeb_contents (o : Oracle) (ru : Str) {s : SpiderState}
    (h : allContentsNil s.key_files) :
    allContentsNil (crawlViaWeb o ru s).key_files := by
  unfold crawlViaWeb
  dsimp only
  split
  · refine crawlWebEntries_contents o _ _ ?_
    rw [altBranchLoop_key_files, extractListingM_key_files]
    exact h
  · refine crawlWebEntries_contents o _ _ ?_
    rw [extractListingM_key_files]
    exact h

/-! ## Candidate-count bounds (the `MAX_KEY_FILES` cap) -/

theorem max_collapse {a b : Nat} (h : b ≤ max a MAX_KEY_FILES) :
    max b MAX_KEY_FILES ≤ max a MAX_KEY_FILES :=
  max_le h (le_max_right _ _)

theorem stepPass1_length (s : SpiderState) (e : TreeEntry) :
    (stepPass1 s e).key_files.length ≤ max s.key_files.length MAX_KEY_FILES := by
  unfold stepPass1
  dsimp only
  split
  · exact le_max_left _ _
  · split
    · split
      · rename_i hcond
        have hlt : s.key_files.length < MAX_KEY_FILES := by
          have := (Bool.and_eq_true _ _).mp hcond
          simpa using this.2
        calc (dictSet s.key_files (cleanPath e.path) ⟨cleanPath e.path, []⟩).length
            ≤ s.key_files.length + 1 := dictSet_length_le _ _ _
          _ ≤ MAX_KEY_FILES := hlt
          _ ≤ max s.key_files.length MAX_KEY_FILES := le_max_right _ _
      · exact le_max_left _ _
    · exact le_max_left _ _

theorem foldl_length_le {α : Type} {f : SpiderState → α → SpiderState}
    (hf : ∀ s a, (f s a).key_files.length ≤ max s.key_files.length MAX_KEY_FILES) :
    ∀ (l : List α) (s : SpiderState),
      (l.foldl f s).key_files.length ≤ max s.key_files.length MAX_KEY_FILES := by
  intro l
  induction l with
  | nil => intro s; exact le_max_left _ _
  | cons x xs ih =>
    intro s
    exact le_trans (ih (f s x)) (max_collapse (hf s x))

theorem processPass1_length (tree : List TreeEntry) (s : SpiderState) :
    (processPass1 tree s).key_files.length ≤ max s.key_files.length MAX_KEY_FILES :=
  foldl_length_le stepPass1_length tree s

theorem stepPass2_length (s : SpiderState) (e : TreeEntry) :
    (stepPass2 s e).key_files.length ≤ s.key_files.length +
      (if ((decide (e.type = "blob".data) && !(e.path.contains '/')) &&
           decide (toLowerStr e.path ∈ KEY_FILES_NAMES)) = true then 1 else 0) := by
  unfold stepPass2
  split
  · rename_i h1
    split
    · rename_i h2
      have := (Bool.and_eq_true _ _).mp h2
      simp only [h1, this.1, Bool.true_and, if_pos rfl]
      simp
    · omega
  · omega

theorem processPass2_length (tree : List TreeEntry) :
    ∀ s : SpiderState, (processPass2 tree s).key_files.length ≤
      s.key_files.length + countRootKeyEntries tree := by
  induction tree with
  | nil => intro s; simp [processPass2, countRootKeyEntries]
  | cons e t ih =>
    intro s
    have h1 := ih (stepPass2 s e)
    have h2 := stepPass2_length s e
    have hc : countRootKeyEntries (e :: t) = countRootKeyEntries t +
        (if ((decide (e.type = "blob".data) && !(e.path.contains '/')) &&
             decide (toLowerStr e.path ∈ KEY_FILES_NAMES)) = true then 1 else 0) := by
      unfold countRootKeyEntries
      rw [List.countP_cons]
    have hfold : processPass2 (e :: t) s = processPass2 t (stepPass2 s e) := rfl
    rw [hfold, hc]
    omega

theorem processApiTree_length (tree : List TreeEntry) (s : SpiderState) :
    (processApiTree tree s).key_files.length ≤
      max s.key_files.length MAX_KEY_FILES + countRootKeyEntries tree := by
  have h1 := processPass2_length tree (processPass1 tree s)
  have h2 := processPass1_length tree s
  unfold processApiTree
  omega

theorem walkEntriesF_length
    {walkF : Str → Str → SpiderState → List Str × SpiderState}
    (hw : ∀ u p s, ((walkF u p s).2).key_files.length ≤
      max s.key_files.length MAX_KEY_FILES) (pfx : Str) :
    ∀ (es : List WebEntry) (s : SpiderState),
      ((walkEntriesF walkF pfx es s).2).key_files.length ≤
        max s.key_files.length MAX_KEY_FILES := by
  intro es
  induction es with
  | nil => intro s; exact le_max_left _ _
  | cons e rest ih =>
    intro s
    rw [walkEntriesF]
    dsimp only
    split
    · exact ih s
    · split
      · exact le_trans (ih _) (max_collapse (hw _ _ _))
      · refine le_trans (ih _) (max_collapse ?_)
        split
        · rename_i hcond
          have hlt : s.key_files.length < MAX_KEY_FILES := by
            have := (Bool.and_eq_true _ _).mp hcond
            simpa using this.2
          calc (dictSet s.key_files _ _).length
              ≤ s.key_files.length + 1 := dictSet_length_le _ _ _
            _ ≤ MAX_KEY_FILES := hlt
            _ ≤ max s.key_files.length MAX_KEY_FILES := le_max_right _ _
        · exact le_max_left _ _

theorem walkWebF_length (o : Oracle) :
    ∀ (fuel : Nat) (u p : Str) (s : SpiderState),
      ((walkWebF o fuel u p s).2).key_files.length ≤
        max s.key_files.length MAX_KEY_FILES := by
  intro fuel
  induction fuel with
  | zero => intro u p s; exact le_max_left _ _
  | succ f ih =>
    intro u p s
    have hx : ((extractListingM o u s).2).key_files.length = s.key_files.length := by
      rw [extractListingM_key_files]
    exact le_trans
      (walkEntriesF_length (fun u' p' s' => ih u' p' s') p _ _)
      (by rw [hx])

theorem crawlWebEntries_length (o : Oracle) :
    ∀ (es : List WebEntry) (s : SpiderState),
      (crawlWebEntries o es s).key_files.length ≤
        max s.key_files.length MAX_KEY_FILES := by
  intro es
  induction es with
  | nil => intro s; exact le_max_left _ _
  | cons e rest ih =>
    intro s
    rw [crawlWebEntries]
    dsimp only
    split
    · exact ih s
    · split
      · split
        · exact le_trans (ih _) (max_collapse (walkWebF_length o _ _ _ _))
        · exact ih _
      · refine le_trans (ih _) (max_collapse ?_)
        split
        · rename_i hcond
          have hlt : s.key_files.length < MAX_KEY_FILES := by
            have := (Bool.and_eq_true _ _).mp hcond
            simpa using this.2
          calc (dictSet s.key_files _ _).length
              ≤ s.key_files.length + 1 := dictSet_length_le _ _ _
            _ ≤ MAX_KEY_FILES := hlt
            _ ≤ max s.key_files.length MAX_KEY_FILES := le_max_right _ _
        · exact le_max_left _ _

theorem crawlViaWeb_length (o : Oracle) (ru : Str) (s : SpiderState) :
    (crawlViaWeb o ru s).key_files.length ≤ max s.key_files.length MAX_KEY_FILES := by
  unfold crawlViaWeb
  dsimp only
  split
  · refine le_trans (crawlWebEntries_length o _ _) ?_
    rw [altBranchLoop_key_files, extractListingM_key_files]
  · refine le_trans (crawlWebEntries_length o _ _) ?_
    rw [extractListingM_key_files]

/-! ## Validity of the assembled blueprint -/

theorem dictSet_key_valid {acc : List (Str × KeyFileInfo)} {k : Str} {v : KeyFileInfo}
    (hacc : ∀ kv ∈ acc, isValidPath kv.1 = true) (hk : isValidPath k = true) :
    ∀ kv ∈ dictSet acc k v, isValidPath kv.1 = true :=
  dictSet_prop (P := fun kv => isValidPath kv.1 = true) hacc hk

theorem foldl_keepVerified_valid :
    ∀ (l : List (Str × KeyFileInfo)),
      (∀ kv ∈ l, kv.2.content ≠ [] → isValidPath (cleanPath kv.1) = true) →
      ∀ (acc : List (Str × KeyFileInfo)), (∀ kv ∈ acc, isValidPath kv.1 = true) →
      ∀ kv ∈ l.foldl keepVerified acc, isValidPath kv.1 = true := by
  intro l
  induction l with
  | nil => intro _ acc hacc kv hkv; exact hacc kv hkv
  | cons x xs ih =>
    intro hl acc hacc
    have hstep : ∀ kv ∈ keepVerified acc x, isValidPath kv.1 = true := by
      intro kv hkv
      unfold keepVerified at hkv
      by_cases hc : (!x.2.content.isEmpty && isValidContent x.2.content) = true
      · rw [if_pos hc] at hkv
        have hne : x.2.content ≠ [] := by
          have h1 := ((Bool.and_eq_true _ _).mp hc).1
          simp only [Bool.not_eq_true'] at h1
          intro hnil
          rw [hnil] at h1
          simp at h1
        exact dictSet_key_valid hacc (hl x (by simp) hne) kv hkv
      · rw [if_neg hc] at hkv
        exact hacc kv hkv
    exact ih (fun kv hkv h => hl kv (by simp [hkv]) h) _ hstep

theorem buildBlueprint_key_files_valid {s : SpiderState}
    (hs : ∀ kv ∈ s.key_files, kv.2.content ≠ [] → isValidPath (cleanPath kv.1) = true) :
    ∀ kv ∈ (buildBlueprint s).key_files, isValidPath kv.1 = true := by
  have h0 : (buildBlueprint s).key_files = s.key_files.foldl keepVerified [] := rfl
  rw [h0]
  exact foldl_keepVerified_valid s.key_files hs [] (by simp)

theorem buildBlueprint_file_tree_valid (s : SpiderState) :
    ∀ p ∈ (buildBlueprint s).file_tree, isValidPath p = true := by
  intro p hp
  have h0 : (buildBlueprint s).file_tree = sortedDedup
      ((s.file_tree.map cleanPath).filter (fun c => !c.isEmpty && isValidPath c)) := rfl
  rw [h0] at hp
  have h2 := List.of_mem_filter (mem_sortedDedup hp)
  simp only [Bool.and_eq_true] at h2
  exact h2.2

/-! ## Branch-fallback characterization -/

theorem tryBranchesT_spec (net : Net) (fp : Str) :
    ∀ bs : List Str,
      (tryBranchesT net fp bs).2 =
        bs.takeWhile (fun b => !branchOk net fp b) ++
        (bs.dropWhile (fun b => !branchOk net fp b)).take 1 ∧
      (tryBranchesT net fp bs).1 =
        (match bs.find? (branchOk net fp) with
         | some b => fetchRawContent net b fp
         | none => []) := by
  intro bs
  induction bs with
  | nil => exact ⟨rfl, rfl⟩
  | cons b t ih =>
    rw [tryBranchesT]
    dsimp only
    by_cases hb : (fetchRawContent net b fp).isEmpty = true
    · rw [if_neg (by simp [hb])]
      have hok : branchOk net fp b = false := by simp [branchOk, hb]
      constructor
      · dsimp only
        simp [List.takeWhile_cons, List.dropWhile_cons, hok, ih.1]
      · dsimp only
        simp only [List.find?_cons, hok]
        exact ih.2
    · rw [if_pos (by simp [hb])]
      have hok : branchOk net fp b = true := by simp [branchOk, hb]
      constructor
      · simp [List.takeWhile_cons, List.dropWhile_cons, hok]
      · simp only [List.find?_cons, hok]

/-! # The claims -/

set_option maxRecDepth 10000 in
set_option maxHeartbeats 4000000 in
/-- C1 (counterexample): the cap `MAX_KEY_FILES = 60` is not an invariant of
the crawl: on a tree of 60 target-directory files followed by the root file
`package.json`, the session tracks 61 candidates after `_process_api_tree`
— the secondary root-file registration pass inserts without a cap check —
and the final Blueprint of that crawl reports 61 candidates found. -/
theorem c1_cap_counterexample :
    MAX_KEY_FILES < (processApiTree c1Tree (emptyState ("main".data))).key_files.length ∧
    (crawlApiPipeline (fun _ _ => none) ("main".data) c1Tree).stats.total_key_files_found
      = 61 := by
  constructor
  · decide
  · decide

/-- C1 (amended): the insertion cap holds for the keyword/target-directory
pass of the API tier and for the web-crawl tier — from any state, the
candidate count never exceeds `max initial MAX_KEY_FILES` there — but the
secondary well-known-root-file pass inserts without a cap check, so after
the API tier the count is bounded only by that plus the number of root-level
blob entries whose lowercased name is a well-known key filename. -/
theorem c1_cap_amended (tree : List TreeEntry) (o : Oracle) (ru : Str)
    (s : SpiderState) :
    (processPass1 tree s).key_files.length ≤ max s.key_files.length MAX_KEY_FILES ∧
    (processApiTree tree s).key_files.length ≤
      max s.key_files.length MAX_KEY_FILES + countRootKeyEntries tree ∧
    (crawlViaWeb o ru s).key_files.length ≤ max s.key_files.length MAX_KEY_FILES :=
  ⟨processPass1_length tree s, processApiTree_length tree s, crawlViaWeb_length o ru s⟩

/-- C2: validity closure — every path in the `file_tree` of the output Blueprint
and every key of its `key_files` map satisfies `_is_valid_path`, for both the
API pipeline and the web pipeline, over any network and rendering oracle. -/
theorem c2_validity_closure (net : Net) (b : Str) (tree : List TreeEntry)
    (o : Oracle) (repoUrl : Str) :
    ((crawlApiPipeline net b tree).file_tree.all isValidPath = true ∧
     ((crawlApiPipeline net b tree).key_files.all fun kv => isValidPath kv.1) = true) ∧
    ((crawlWebPipeline o net b repoUrl).file_tree.all isValidPath = true ∧
     ((crawlWebPipeline o net b repoUrl).key_files.all fun kv => isValidPath kv.1) = true) := by
  have hapi : allContentsNil (processApiTree tree (emptyState b)).key_files :=
    processApiTree_contents (fun kv hkv => by simp [emptyState] at hkv)
  have hweb : allContentsNil (crawlViaWeb o repoUrl (emptyState b)).key_files :=
    crawlViaWeb_contents o repoUrl (fun kv hkv => by simp [emptyState] at hkv)
  refine ⟨⟨?_, ?_⟩, ?_, ?_⟩
  · unfold crawlApiPipeline
    rw [List.all_eq_true]
    intro p hp
    rw [finalize_file_tree] at hp
    exact buildBlueprint_file_tree_valid _ p hp
  · unfold crawlApiPipeline
    rw [List.all_eq_true]
    intro kv hkv
    rw [finalize_key_files] at hkv
    exact buildBlueprint_key_files_valid (fetchAllContents_valid hapi) kv hkv
  · unfold crawlWebPipeline
    rw [List.all_eq_true]
    intro p hp
    rw [finalize_file_tree] at hp
    exact buildBlueprint_file_tree_valid _ p hp
  · unfold crawlWebPipeline
    rw [List.all_eq_true]
    intro kv hkv
    rw [finalize_key_files] at hkv
    exact buildBlueprint_key_files_valid (fetchAllContents_valid hweb) kv hkv

/-- C3: for a candidate whose cleaned path passes the validity guard, the
content fetch tries the resolved branch of the session first, then the remaining
candidate branches in declared order (`main, master, develop, dev`, skipping
the resolved one); the branches actually requested are exactly the failing
prefix plus the first validated success, and the result is that success's
content (or empty if every branch fails). -/
theorem c3_branch_fallback (net : Net) (resolved fp : Str)
    (h1 : (cleanPath fp).isEmpty = false) (h2 : isValidPath (cleanPath fp) = true) :
    branchOrder resolved =
      resolved :: CANDIDATE_BRANCHES.filter (fun b => decide (b ≠ resolved)) ∧
    (fetchSingleContentT net resolved fp).2 =
      (branchOrder resolved).takeWhile (fun b => !branchOk net (cleanPath fp) b) ++
      ((branchOrder resolved).dropWhile (fun b => !branchOk net (cleanPath fp) b)).take 1 ∧
    (fetchSingleContentT net resolved fp).1 =
      (match (branchOrder resolved).find? (branchOk net (cleanPath fp)) with
       | some b => fetchRawContent net b (cleanPath fp)
       | none => []) := by
  have hu : fetchSingleContentT net resolved fp =
      tryBranchesT net (cleanPath fp) (branchOrder resolved) := by
    unfold fetchSingleContentT
    dsimp only
    rw [if_neg (by simp [h1, h2])]
  refine ⟨rfl, ?_, ?_⟩
  · rw [hu]
    exact (tryBranchesT_spec net (cleanPath fp) (branchOrder resolved)).1
  · rw [hu]
    exact (tryBranchesT_spec net (cleanPath fp) (branchOrder resolved)).2

/-- Witness for C3: with a network where only `master` serves the file, the
fetch requests `main` then `master` (and not `develop` or `dev`) and returns
`master`'s content. -/
theorem c3_branch_fallback_witness :
    (cleanPath ("README.md".data)).isEmpty = false ∧
    isValidPath (cleanPath ("README.md".data)) = true ∧
    (fetchSingleContentT c3Net ("main".data) ("README.md".data)).2 =
      ["main".data, "master".data] ∧
    (fetchSingleContentT c3Net ("main".data) ("README.md".data)).1 = "hello".data := by
  have h := c3_branch_fallback c3Net ("main".data) ("README.md".data) (by decide) (by decide)
  refine ⟨by decide, by decide, ?_, ?_⟩
  · rw [h.2.1]
    decide
  · rw [h.2.2]
    decide

/-- C4 (counterexample): path cleaning is not idempotent: cleaning
`"x /actions"` drops the noise segment `actions` and leaves `"x "`, whose
trailing space a second cleaning removes. -/
theorem c4_clean_counterexample :
    cleanPath (cleanPath ("x /actions".data)) ≠ cleanPath ("x /actions".data) := by
  decide

/-- C4 (amended): cleaning is idempotent on every path whose cleaned form is
stable — already stripped, with no UI-noise prefix or noise keyword at the
front, no surrounding slashes, and only nonempty non-noise segments; in
general a dropped noise segment can expose surrounding whitespace or a noise
prefix, so `clean (clean p) = clean p` fails for some `p`. -/
theorem c4_clean_idempotent_on_stable (p : Str)
    (h : cleanStable (cleanPath p) = true) :
    cleanPath (cleanPath p) = cleanPath p :=
  cleanPath_of_cleanStable h

/-- Witness for C4 (amended) at `"src/auth.py"`. -/
theorem c4_clean_idempotent_on_stable_witness :
    cleanStable (cleanPath ("src/auth.py".data)) = true ∧
    cleanPath (cleanPath ("src/auth.py".data)) = cleanPath ("src/auth.py".data) :=
  ⟨by decide, c4_clean_idempotent_on_stable ("src/auth.py".data) (by decide)⟩

/-- C5 (counterexample): the debug payload is keyed on zero candidates
*found*, not zero *verified*: a session with one candidate whose fetch
failed has zero verified key files yet its Blueprint carries no debug
field. -/
theorem c5_debug_counterexample :
    (finalize c5State).stats.total_key_files_with_content = 0 ∧
    (finalize c5State).debug = none := by
  constructor
  · decide
  · decide

/-- C5 (amended): the debug payload is attached exactly when zero key-file
candidates were found and a markup excerpt was captured (which implies zero
verified as well), and a zero-result crawl still yields a well-formed
Blueprint whose `stats.total_key_files_found` is the candidate count, not a
failure. -/
theorem c5_debug_amended (s : SpiderState) :
    (finalize s).debug.isSome =
      (decide (s.key_files.length = 0) && !s.debug_html.isEmpty) ∧
    (finalize s).stats.total_key_files_found = s.key_files.length := by
  constructor
  · unfold finalize
    dsimp only
    split
    · rename_i hc
      rw [buildBlueprint_found] at hc
      simp only [Option.isSome_some]
      exact hc.symm
    · rename_i hc
      rw [buildBlueprint_found] at hc
      have hd : (buildBlueprint s).debug = none := rfl
      rw [hd]
      simp only [Option.isSome_none]
      have hf : (decide (s.key_files.length = 0) && !s.debug_html.isEmpty) = false :=
        Bool.eq_false_iff.mpr hc
      rw [hf]
  · rw [finalize_stats, buildBlueprint_found]

/-- C6 (counterexample): with a root listing holding only the non-target
directory `docs` and the file `main.py`, the crawl issues no directory
listing request at all (`visited` stays empty) and records only the two
root names, although the oracle lists a file inside `docs` — top-level
non-target directories are skipped entirely, not shallow-crawled. -/
theorem c6_counterexample :
    (crawlWebEntries flatOracle c6Entries (emptyState ("main".data))).visited = [] ∧
    (crawlWebEntries flatOracle c6Entries (emptyState ("main".data))).file_tree =
      ["docs/".data, "main.py".data] ∧
    (flatOracle (resolveLink ("/o/r/tree/main/docs".data))).entries ≠ [] := by
  refine ⟨by decide, by decide, by decide⟩

/-- C6 (amended): when the cleaned name of no root-level directory is in the
target-directory allow-list, the web-crawl loop crawls no directory at all:
each directory is recorded by name only and no listing request is issued
(the visited set does not grow); recursion happens only for allow-listed
directories. -/
theorem c6_no_target_no_crawl (o : Oracle) (entries : List WebEntry) (s : SpiderState)
    (h : entries.all (fun e => !webIsDir e ||
      !(decide (toLowerStr (cleanPath (pyStrip e.name)) ∈ TARGET_DIRS))) = true) :
    (crawlWebEntries o entries s).visited = s.visited := by
  induction entries generalizing s with
  | nil => rfl
  | cons e rest ih =>
    rw [List.all_cons, Bool.and_eq_true] at h
    obtain ⟨he, hrest⟩ := h
    rw [crawlWebEntries]
    dsimp only
    split
    · exact ih _ hrest
    · split
      · rename_i hdir
        split
        · rename_i htgt
          exfalso
          simp [hdir, htgt] at he
        · rw [ih _ hrest]
      · rw [ih _ hrest]
        split <;> rfl

/-- Witness for C6 (amended): a single non-target `docs` directory is not
crawled. -/
theorem c6_no_target_no_crawl_witness :
    (c6wEntries.all (fun e => !webIsDir e ||
      !(decide (toLowerStr (cleanPath (pyStrip e.name)) ∈ TARGET_DIRS)))) = true ∧
    (crawlWebEntries flatOracle c6wEntries (emptyState ("main".data))).visited = [] := by
  constructor
  · decide
  · rw [c6_no_target_no_crawl flatOracle c6wEntries (emptyState ("main".data)) (by decide)]
    rfl

/-- C7: content validation rejects exactly the empty/whitespace-only bodies
and those whose trimmed first 200 characters, lowercased, begin with `404`,
contain `404: not found`, or contain `<html` together with `not found`; all
other bodies are accepted.  In particular an HTML page with `404` and
`Not Found` served with status 200 is rejected by the raw-content fetch. -/
theorem c7_content_validation :
    (∀ c : Str, isValidContent c = !rejectedBySpec c) ∧
    isValidContent ("<html><body>404 Not Found</body></html>".data) = false ∧
    fetchRawContent (fun _ _ => some ("<html><body>404 Not Found</body></html>".data))
      ("main".data) ("config/auth.ts".data) = [] := by
  refine ⟨fun c => ?_, by decide, by decide⟩
  unfold isValidContent rejectedBySpec
  cases h1 : (pyStrip c).isEmpty <;>
    cases h2 : ("404".data).isPrefixOf (trimmed200 c) <;>
      cases h3 : containsSub ("404: not found".data) (trimmed200 c) <;>
        cases h4 : containsSub ("<html".data) (trimmed200 c) <;>
          cases h5 : containsSub ("not found".data) (trimmed200 c) <;>
            simp [h1, h2, h3, h4, h5]

/-- C8 (counterexample): exceeding the depth bound yields the empty entry
list — no truncation marker: at depth 5 the walk returns `[]`, while the
same walk at depth 4 over the same oracle returns entries. -/
theorem c8_depth_counterexample :
    (walkWebDirectory flatOracle ("u".data) ("p".data) 5 (emptyState ("main".data))).1 = [] ∧
    (walkWebDirectory flatOracle ("u".data) ("p".data) 4 (emptyState ("main".data))).1 ≠ [] := by
  refine ⟨by decide, by decide⟩

/-- C8 (amended): the web-directory recursion is bounded at depth 4: any
call with depth > 4 immediately returns the empty entry list with the state
untouched (no listing request is issued), so the walk never descends past
the bound and terminates on any link graph; the truncation is silent rather
than marked. -/
theorem c8_depth_bound (o : Oracle) (url pfx : Str) (d : Nat) (s : SpiderState)
    (h : 4 < d) : walkWebDirectory o url pfx d s = ([], s) := by
  unfold walkWebDirectory
  have h5 : 5 - d = 0 := by omega
  rw [h5]
  rfl

/-- Witness for C8 (amended) at depth 5. -/
theorem c8_depth_bound_witness :
    4 < 5 ∧ walkWebDirectory flatOracle ("u".data) ("p".data) 5 (emptyState ("main".data))
      = ([], emptyState ("main".data)) :=
  ⟨by decide,
   c8_depth_bound flatOracle ("u".data) ("p".data) 5 (emptyState ("main".data)) (by decide)⟩

/-- C9: after assembly, the `file_tree` of the Blueprint is strictly
lexicographically sorted (code-point order) and contains no repeated path,
regardless of what the discovery tiers accumulated. -/
theorem c9_file_tree_sorted (s : SpiderState) :
    ((finalize s).file_tree).Pairwise (· < ·) ∧ ((finalize s).file_tree).Nodup := by
  rw [finalize_file_tree]
  have h0 : (buildBlueprint s).file_tree = sortedDedup
      ((s.file_tree.map cleanPath).filter (fun c => !c.isEmpty && isValidPath c)) := rfl
  rw [h0]
  refine ⟨pairwise_sortedDedup _, ?_⟩
  exact (pairwise_sortedDedup _).imp (fun hab => ne_of_lt hab)

end Spider
